import Mathlib

/-!
# Verification of `simple_parallel_compute::compute`

Shallow embedding of `src/lib.rs`.  The Rust function

```rust
pub fn compute<T, R>(input: Vec<T>, f: fn(t: T) -> R) -> Vec<R>
```

maps `f` over `input`: sequentially when `input.len() < THRESHOLD`, otherwise
by splitting the input into chunks of `ceil(n / p)` elements (`p` the host's
available parallelism), running one worker per chunk, and concatenating the
joined worker results in chunk order.

Modelling decisions:
* `Vec<T>` becomes `List T`; `usize` arithmetic becomes `Nat` (the only
  arithmetic is `(n + p - 1) / p`, which cannot overflow for realistic sizes
  and is monotone, so `Nat` is faithful).
* `available_parallelism()` returns `Result<NonZeroUsize>`; the call result is
  a parameter `par : Option Nat` (`none` = the host query failed).  `.expect`
  on a failed query panics, so `compute` returns `Option (List R)` with `none`
  modelling a panic of the call.
* Rust's `slice::chunks(chunk_size)` panics when `chunk_size == 0`; this is
  the `none` branch of `chunksRs`.  The positive-size behaviour is
  `chunksGo`, driven by a fuel argument that is always instantiated with the
  list length (sufficient whenever the chunk size is positive).
-/

namespace SimpleParallelCompute

/-- `const THRESHOLD: usize = 5;` -/
def THRESHOLD : Nat := 5

/-- Fuel-driven splitting of a list into consecutive chunks of `c` elements,
the last chunk truncated.  With `fuel = l.length` and `0 < c` this is exactly
Rust's `slice::chunks(c)`. -/
def chunksGo (fuel c : Nat) (l : List α) : List (List α) :=
  match fuel, l with
  | 0, _ => []
  | _ + 1, [] => []
  | fuel + 1, x :: xs => ((x :: xs).take c) :: chunksGo fuel c ((x :: xs).drop c)

/-- Rust's `slice::chunks(c)`: panics (`none`) when `c = 0`, otherwise the
list of consecutive chunks of `c` elements (last chunk truncated). -/
def chunksRs (c : Nat) (l : List α) : Option (List (List α)) :=
  if c = 0 then none else some (chunksGo l.length c l)

/-- Embedding of `compute` from `src/lib.rs`.  `par` is the result of the
`available_parallelism()` host query (`none` = query failed); the `Option`
result is `none` exactly when the Rust call panics. -/
def compute (par : Option Nat) (input : List T) (f : T → R) : Option (List R) :=
  let input_size := input.length
  if input_size < THRESHOLD then
    some (input.map f)
  else
    match par with
    | none => none
    | some threads_count =>
      let chunk_size := (input_size + threads_count - 1) / threads_count
      match chunksRs chunk_size input with
      | none => none
      | some chunks => some ((chunks.map (fun chunk => chunk.map f)).flatten)

/-! ## Worker-failure model

`compute` takes `f: fn(t: T) -> R`, assumed total, but the spec also describes
what happens when `f` panics inside a worker.  Here `f : T → Option R` with
`none` meaning "the Rust function panics on this element". -/

/-- Worker body `chunk.into_iter().map(f).collect()` for a transformation that
may fail: the worker panics (`none`) at the first failing element. -/
def mapPanic (f : T → Option R) : List T → Option (List R)
  | [] => some []
  | x :: xs =>
    match f x with
    | none => none
    | some y =>
      match mapPanic f xs with
      | none => none
      | some ys => some (y :: ys)

/-- The per-worker results (`thread_handles`, in spawn order) of the parallel
path for parallelism `p`, one entry per chunk. -/
def handlesOf (p : Nat) (input : List T) (f : T → Option R) :
    List (Option (List R)) :=
  (chunksGo input.length ((input.length + p - 1) / p) input).map (mapPanic f)

/-- `thread_handles.into_iter().flat_map(|handle| handle.join().unwrap()).collect()`:
handles are joined in spawn order; the first `Err` join makes `.unwrap()`
panic (`none`), so handles after it are never joined. -/
def joinCollect : List (Option (List R)) → Option (List R)
  | [] => some []
  | none :: _ => none
  | some r :: rest =>
    match joinCollect rest with
    | none => none
    | some acc => some (r ++ acc)

/-- The number of `join()` calls `joinCollect` performs before returning or
panicking: it stops at the first failed handle (which is itself joined — the
panic happens in `.unwrap()`, after its `join()` returned). -/
def joinCount : List (Option (List R)) → Nat
  | [] => 0
  | none :: _ => 1
  | some _ :: rest => 1 + joinCount rest

/-- `compute` for a transformation that may fail inside a worker; a `none`
result models a panicking `compute` call. -/
def computePanic (par : Option Nat) (input : List T) (f : T → Option R) :
    Option (List R) :=
  let input_size := input.length
  if input_size < THRESHOLD then
    mapPanic f input
  else
    match par with
    | none => none
    | some threads_count =>
      let chunk_size := (input_size + threads_count - 1) / threads_count
      match chunksRs chunk_size input with
      | none => none
      | some chunks => joinCollect (chunks.map (mapPanic f))

/-! ## Lemmas about `chunksGo` -/

/-- With enough fuel and a positive chunk size, the chunks flatten back to the
original list: the chunking is an exact partition. -/
theorem chunksGo_flatten (c : Nat) (hc : 0 < c) :
    ∀ (fuel : Nat) (l : List α), l.length ≤ fuel →
      (chunksGo fuel c l).flatten = l := by
  intro fuel
  induction fuel with
  | zero =>
    intro l hl
    have : l = [] := List.length_eq_zero.mp (Nat.le_zero.mp hl)
    subst this
    rfl
  | succ fuel ih =>
    intro l hl
    match l with
    | [] => rfl
    | x :: xs =>
      simp only [chunksGo, List.flatten_cons]
      rw [ih ((x :: xs).drop c) ?_, List.take_append_drop]
      have hlen : ((x :: xs).drop c).length = (x :: xs).length - c := by
        simp [List.length_drop]
      simp only [List.length_cons] at hl hlen
      omega

/-- Every chunk produced by `chunksGo` has at most `c` elements. -/
theorem chunksGo_length_le (c : Nat) :
    ∀ (fuel : Nat) (l : List α) (ch : List α), ch ∈ chunksGo fuel c l →
      ch.length ≤ c := by
  intro fuel
  induction fuel with
  | zero =>
    intro l ch h
    simp [chunksGo] at h
  | succ fuel ih =>
    intro l ch h
    match l with
    | [] => simp [chunksGo] at h
    | x :: xs =>
      simp only [chunksGo, List.mem_cons] at h
      rcases h with h | h
      · subst h
        simp only [List.length_take]
        omega
      · exact ih _ _ h

/-- Every chunk produced by `chunksGo` is nonempty (at least one element). -/
theorem chunksGo_length_pos (c : Nat) (hc : 0 < c) :
    ∀ (fuel : Nat) (l : List α) (ch : List α), ch ∈ chunksGo fuel c l →
      0 < ch.length := by
  intro fuel
  induction fuel with
  | zero =>
    intro l ch h
    simp [chunksGo] at h
  | succ fuel ih =>
    intro l ch h
    match l with
    | [] => simp [chunksGo] at h
    | x :: xs =>
      simp only [chunksGo, List.mem_cons] at h
      rcases h with h | h
      · subst h
        simp only [List.length_take, List.length_cons]
        omega
      · exact ih _ _ h

/-- The number of chunks is `ceil (l.length / c)`, written `(n + c - 1) / c`. -/
theorem chunksGo_count (c : Nat) (hc : 0 < c) :
    ∀ (fuel : Nat) (l : List α), l.length ≤ fuel →
      (chunksGo fuel c l).length = (l.length + c - 1) / c := by
  intro fuel
  induction fuel with
  | zero =>
    intro l hl
    have hnil : l = [] := List.length_eq_zero.mp (Nat.le_zero.mp hl)
    subst hnil
    have h0 : (0 + c - 1) / c = 0 := Nat.div_eq_of_lt (by omega)
    simpa [chunksGo] using h0.symm
  | succ fuel ih =>
    intro l hl
    match l with
    | [] =>
      have h0 : (0 + c - 1) / c = 0 := Nat.div_eq_of_lt (by omega)
      simpa [chunksGo] using h0.symm
    | x :: xs =>
      have hdrop : ((x :: xs).drop c).length = xs.length + 1 - c := by
        simp [List.length_drop]
      have hfuel : ((x :: xs).drop c).length ≤ fuel := by
        simp only [List.length_cons] at hl
        omega
      simp only [chunksGo, List.length_cons]
      rw [ih _ hfuel, hdrop]
      rcases Nat.le_total (xs.length + 1) c with hle | hle
      · have h1 : xs.length + 1 - c = 0 := by omega
        have h2 : (0 + c - 1) / c = 0 := Nat.div_eq_of_lt (by omega)
        have h3 : (xs.length + 1 + c - 1) / c = 1 :=
          Nat.div_eq_of_lt_le (by omega) (by omega)
        rw [h1, h2, h3]
      · have h4 : xs.length + 1 + c - 1 = (xs.length + 1 - c + c - 1) + c := by
          omega
        rw [h4, Nat.add_div_right _ hc]

/-- A list is split into `[]` unconditionally by `chunksGo` when empty. -/
theorem chunksGo_nil (fuel c : Nat) : chunksGo fuel c ([] : List α) = [] := by
  cases fuel <;> rfl

/-- Every chunk except (possibly) the last has exactly `c` elements. -/
theorem chunksGo_dropLast_length (c : Nat) (hc : 0 < c) :
    ∀ (fuel : Nat) (l : List α) (ch : List α), l.length ≤ fuel →
      ch ∈ (chunksGo fuel c l).dropLast → ch.length = c := by
  intro fuel
  induction fuel with
  | zero =>
    intro l ch hl h
    have hnil : l = [] := List.length_eq_zero.mp (Nat.le_zero.mp hl)
    subst hnil
    simp [chunksGo] at h
  | succ fuel ih =>
    intro l ch hl h
    match l with
    | [] => simp [chunksGo] at h
    | x :: xs =>
      simp only [chunksGo] at h
      rcases hrest : chunksGo fuel c ((x :: xs).drop c) with _ | ⟨r, rs⟩
      · rw [hrest] at h
        simp at h
      · rw [hrest] at h
        have hdl : ((x :: xs).take c :: r :: rs).dropLast
            = (x :: xs).take c :: (r :: rs).dropLast := rfl
        rw [hdl, List.mem_cons] at h
        rcases h with h | h
        · subst h
          have hne : (x :: xs).drop c ≠ [] := by
            intro hcon
            rw [hcon, chunksGo_nil] at hrest
            exact List.noConfusion hrest
          have hlt : c < (x :: xs).length := by
            by_contra hcon
            exact hne (List.drop_eq_nil_of_le (by omega))
          simp only [List.length_take]
          omega
        · rw [← hrest] at h
          have hfuel : ((x :: xs).drop c).length ≤ fuel := by
            simp only [List.length_drop, List.length_cons] at *
            omega
          exact ih _ _ hfuel h

/-! ## Arithmetic facts about `chunk_size = (n + p - 1) / p` -/

/-- `chunk_size * p` covers all `n` elements: `n ≤ ceil(n/p) * p`. -/
theorem le_chunk_size_mul (n p : Nat) (hp : 0 < p) :
    n ≤ (n + p - 1) / p * p := by
  have h := Nat.lt_div_mul_add (a := n + p - 1) hp
  omega

/-- `chunk_size` is the least `k` with `n ≤ k * p`: it is exactly `ceil(n/p)`. -/
theorem chunk_size_le_of_le_mul (n p k : Nat) (hp : 0 < p) (hk : n ≤ k * p) :
    (n + p - 1) / p ≤ k := by
  by_contra h
  push_neg at h
  have h2 : (k + 1) * p ≤ n + p - 1 := (Nat.le_div_iff_mul_le hp).mp h
  have h3 : (k + 1) * p = k * p + p := by ring
  omega

/-- `chunk_size` is positive whenever the input is nonempty. -/
theorem chunk_size_pos (n p : Nat) (hp : 0 < p) (hn : 0 < n) :
    0 < (n + p - 1) / p :=
  (Nat.one_le_div_iff hp).mpr (by omega)

/-- The number of chunks, `ceil(n / chunk_size)`, never exceeds `p`. -/
theorem chunk_count_le (n p : Nat) (hp : 0 < p) (hn : 0 < n) :
    (n + (n + p - 1) / p - 1) / ((n + p - 1) / p) ≤ p := by
  have hc1 : 0 < (n + p - 1) / p := chunk_size_pos n p hp hn
  have hle : n ≤ (n + p - 1) / p * p := le_chunk_size_mul n p hp
  have hlt : (n + (n + p - 1) / p - 1) / ((n + p - 1) / p) < p + 1 := by
    rw [Nat.div_lt_iff_lt_mul hc1]
    have hring : (p + 1) * ((n + p - 1) / p)
        = (n + p - 1) / p * p + (n + p - 1) / p := by ring
    omega
  omega

/-- A failed handle anywhere in the list makes the joined collection fail. -/
theorem joinCollect_eq_none {R : Type} :
    ∀ {hs : List (Option (List R))}, (Option.none ∈ hs) →
      joinCollect hs = none := by
  intro hs
  induction hs with
  | nil => intro h; simp at h
  | cons hd tl ih =>
    intro h
    match hd with
    | none => rfl
    | some r =>
      have htl : Option.none ∈ tl := by
        rcases List.mem_cons.mp h with h | h
        · exact absurd h.symm (by simp)
        · exact h
      simp only [joinCollect, ih htl]

/-- Joining stops at the first failed handle: with the first failure at index
`pre.length`, exactly `pre.length + 1` joins are performed. -/
theorem joinCount_first_fail {R : Type} :
    ∀ (pre : List (Option (List R))) (post : List (Option (List R))),
      Option.none ∉ pre →
      joinCount (pre ++ Option.none :: post) = pre.length + 1 := by
  intro pre
  induction pre with
  | nil => intro post _; rfl
  | cons hd tl ih =>
    intro post hpre
    match hd with
    | none => exact absurd (List.mem_cons_self _ _) hpre
    | some r =>
      have htl : Option.none ∉ tl := fun h => hpre (List.mem_cons_of_mem _ h)
      have hstep : joinCount ((some r :: tl) ++ Option.none :: post)
          = 1 + joinCount (tl ++ Option.none :: post) := rfl
      rw [hstep, ih post htl, List.length_cons]
      omega

/-! ## Path characterizations of `compute` -/

/-- On the parallel path (`THRESHOLD ≤ n`, parallelism `p ≥ 1`), `compute`
returns the flattened per-chunk maps. -/
theorem compute_parallel_eq {T R : Type} (input : List T) (f : T → R) (p : Nat)
    (hp : 0 < p) (hn : THRESHOLD ≤ input.length) :
    compute (some p) input f
      = some (((chunksGo input.length ((input.length + p - 1) / p) input).map
          (fun chunk => chunk.map f)).flatten) := by
  have h5 : THRESHOLD = 5 := rfl
  have hc : ¬ (input.length + p - 1) / p = 0 := by
    have := chunk_size_pos input.length p hp (by omega)
    omega
  simp [compute, chunksRs, Nat.not_lt.mpr hn, hc]

/-- `compute` with any positive parallelism is `List.map`. -/
theorem compute_eq_map {T R : Type} (input : List T) (f : T → R) (p : Nat)
    (hp : 0 < p) : compute (some p) input f = some (input.map f) := by
  rcases Nat.lt_or_ge input.length THRESHOLD with h | h
  · simp [compute, h]
  · rw [compute_parallel_eq input f p hp h]
    have h5 : THRESHOLD = 5 := rfl
    have hc : 0 < (input.length + p - 1) / p :=
      chunk_size_pos input.length p hp (by omega)
    rw [← List.map_flatten, chunksGo_flatten _ hc _ _ le_rfl]

/-- On the parallel path, `computePanic` joins the worker handles in order. -/
theorem computePanic_parallel_eq {T R : Type} (input : List T)
    (f : T → Option R) (p : Nat) (hp : 0 < p) (hn : THRESHOLD ≤ input.length) :
    computePanic (some p) input f = joinCollect (handlesOf p input f) := by
  have h5 : THRESHOLD = 5 := rfl
  have hc : ¬ (input.length + p - 1) / p = 0 := by
    have := chunk_size_pos input.length p hp (by omega)
    omega
  simp [computePanic, chunksRs, Nat.not_lt.mpr hn, hc, handlesOf]

/-! ## Claim theorems -/

/-- C1: for every input and every transformation `f`, `compute` (with any
positive host parallelism, covering both the sequential path `n < 5` and the
parallel path `n ≥ 5`) returns a sequence of the input's length whose `i`-th
element is `f` of the `i`-th input element, in original input order. -/
theorem compute_correct {T R : Type} (input : List T) (f : T → R) (p : Nat)
    (hp : 0 < p) :
    ∃ output, compute (some p) input f = some output ∧
      output.length = input.length ∧
      ∀ (i : Nat) (h1 : i < output.length) (h2 : i < input.length),
        output.get ⟨i, h1⟩ = f (input.get ⟨i, h2⟩) := by
  refine ⟨input.map f, compute_eq_map input f p hp, by simp, ?_⟩
  intro i h1 h2
  simp

theorem compute_correct_witness :
    0 < 4 ∧
    ∃ output,
      compute (some 4) ([1, 2, 3, 4, 5, 6, 7, 8, 9, 10] : List Nat)
          (fun t => t * 2) = some output ∧
      output.length = ([1, 2, 3, 4, 5, 6, 7, 8, 9, 10] : List Nat).length ∧
      ∀ (i : Nat) (h1 : i < output.length)
        (h2 : i < ([1, 2, 3, 4, 5, 6, 7, 8, 9, 10] : List Nat).length),
        output.get ⟨i, h1⟩
          = (fun t => t * 2) (([1, 2, 3, 4, 5, 6, 7, 8, 9, 10] : List Nat).get ⟨i, h2⟩) :=
  ⟨by decide, compute_correct [1, 2, 3, 4, 5, 6, 7, 8, 9, 10]
    (fun t => t * 2) 4 (by decide)⟩

/-- C2: below the threshold (including the empty input) `compute` takes the
sequential path and equals `map f input`, element-wise and in order, for any
outcome of the host-parallelism query. -/
theorem compute_sequential_below_threshold {T R : Type} (input : List T)
    (f : T → R) (par : Option Nat) (h : input.length < THRESHOLD) :
    compute par input f = some (input.map f) := by
  simp [compute, h]

theorem compute_sequential_below_threshold_witness :
    (([] : List Nat).length < THRESHOLD ∧
      compute (some 8) ([] : List Nat) (fun t => t * 2)
        = some (([] : List Nat).map (fun t => t * 2))) ∧
    (([1, 2] : List Nat).length < THRESHOLD ∧
      compute (some 8) ([1, 2] : List Nat) (fun t => t * 2)
        = some (([1, 2] : List Nat).map (fun t => t * 2))) :=
  ⟨⟨by decide, compute_sequential_below_threshold [] (fun t => t * 2)
      (some 8) (by decide)⟩,
   ⟨by decide, compute_sequential_below_threshold [1, 2] (fun t => t * 2)
      (some 8) (by decide)⟩⟩

/-- C7: on the parallel path (`n ≥ 5`), a failed host-parallelism query makes
the whole `compute` call fail: no output is produced and there is no fallback
thread count. -/
theorem compute_host_query_failure {T R : Type} (input : List T) (f : T → R)
    (hn : THRESHOLD ≤ input.length) :
    compute none input f = none := by
  simp [compute, Nat.not_lt.mpr hn]

theorem compute_host_query_failure_witness :
    THRESHOLD ≤ ([1, 2, 3, 4, 5] : List Nat).length ∧
      compute none ([1, 2, 3, 4, 5] : List Nat) (fun t => t * 2) = none :=
  ⟨by decide, compute_host_query_failure [1, 2, 3, 4, 5] (fun t => t * 2)
    (by decide)⟩

/-- C8: `compute` is deterministic — with the same input and the same
(deterministic) `f`, any two runs give identical outputs, even across
different positive parallelism values (chunk boundaries do not affect the
result). -/
theorem compute_deterministic {T R : Type} (input : List T) (f : T → R)
    (p₁ p₂ : Nat) (h1 : 0 < p₁) (h2 : 0 < p₂) :
    compute (some p₁) input f = compute (some p₂) input f := by
  rw [compute_eq_map input f p₁ h1, compute_eq_map input f p₂ h2]

theorem compute_deterministic_witness :
    0 < 2 ∧ 0 < 7 ∧
      compute (some 2) ([1, 2, 3, 4, 5, 6] : List Nat) (fun t => t * 2)
        = compute (some 7) ([1, 2, 3, 4, 5, 6] : List Nat) (fun t => t * 2) :=
  ⟨by decide, by decide,
    compute_deterministic [1, 2, 3, 4, 5, 6] (fun t => t * 2) 2 7
      (by decide) (by decide)⟩

/-- C9: on the parallel path `chunk_size = (n + p - 1) / p` is at least 1, so
the zero-chunk-size panic branch of `chunksRs` is unreachable and `compute`
produces an output. -/
theorem compute_parallel_no_zero_chunk {T R : Type} (input : List T)
    (f : T → R) (p : Nat) (hp : 0 < p) (hn : THRESHOLD ≤ input.length) :
    0 < (input.length + p - 1) / p ∧
    chunksRs ((input.length + p - 1) / p) input ≠ none ∧
    ∃ output, compute (some p) input f = some output := by
  have h5 : THRESHOLD = 5 := rfl
  have hc : 0 < (input.length + p - 1) / p :=
    chunk_size_pos input.length p hp (by omega)
  have hc0 : ¬ (input.length + p - 1) / p = 0 := by omega
  refine ⟨hc, ?_, input.map f, compute_eq_map input f p hp⟩
  simp [chunksRs, hc0]

theorem compute_parallel_no_zero_chunk_witness :
    0 < 3 ∧ THRESHOLD ≤ ([1, 2, 3, 4, 5] : List Nat).length ∧
    (0 < (([1, 2, 3, 4, 5] : List Nat).length + 3 - 1) / 3 ∧
     chunksRs ((([1, 2, 3, 4, 5] : List Nat).length + 3 - 1) / 3)
        ([1, 2, 3, 4, 5] : List Nat) ≠ none ∧
     ∃ output, compute (some 3) ([1, 2, 3, 4, 5] : List Nat) (fun t => t * 2)
        = some output) :=
  ⟨by decide, by decide,
    compute_parallel_no_zero_chunk [1, 2, 3, 4, 5] (fun t => t * 2) 3
      (by decide) (by decide)⟩

/-- C10: below the threshold the host-parallelism query never influences the
call: the result is identical for every query outcome, and even a failed
query (`none`) still yields the mapped output — a `HostQueryFailure` cannot
occur for sub-threshold inputs. -/
theorem compute_small_no_host_query {T R : Type} (input : List T) (f : T → R)
    (h : input.length < THRESHOLD) :
    compute none input f = some (input.map f) ∧
    ∀ par₁ par₂, compute par₁ input f = compute par₂ input f := by
  refine ⟨by simp [compute, h], ?_⟩
  intro par₁ par₂
  simp [compute, h]

theorem compute_small_no_host_query_witness :
    ([7, 8, 9] : List Nat).length < THRESHOLD ∧
    (compute none ([7, 8, 9] : List Nat) (fun t => t + 1)
        = some (([7, 8, 9] : List Nat).map (fun t => t + 1)) ∧
     ∀ par₁ par₂, compute par₁ ([7, 8, 9] : List Nat) (fun t => t + 1)
        = compute par₂ ([7, 8, 9] : List Nat) (fun t => t + 1)) :=
  ⟨by decide, compute_small_no_host_query [7, 8, 9] (fun t => t + 1)
    (by decide)⟩

/-- C3: on the parallel path, `chunk_size = (n + p - 1) / p` is exactly
`ceil(n/p)` (the least `k` with `n ≤ k * p`), no chunk exceeds `chunk_size`
elements, and the number of chunks — hence of spawned workers — is at most
`p`. -/
theorem compute_chunk_invariants {T : Type} (input : List T) (p : Nat)
    (hp : 0 < p) (hn : THRESHOLD ≤ input.length) :
    (input.length ≤ ((input.length + p - 1) / p) * p ∧
      ∀ k, input.length ≤ k * p → (input.length + p - 1) / p ≤ k) ∧
    (∀ ch ∈ chunksGo input.length ((input.length + p - 1) / p) input,
      ch.length ≤ (input.length + p - 1) / p) ∧
    (chunksGo input.length ((input.length + p - 1) / p) input).length ≤ p := by
  have h5 : THRESHOLD = 5 := rfl
  have hn1 : 0 < input.length := by omega
  have hc : 0 < (input.length + p - 1) / p := chunk_size_pos _ _ hp hn1
  refine ⟨⟨le_chunk_size_mul _ _ hp,
      fun k hk => chunk_size_le_of_le_mul _ _ _ hp hk⟩, ?_, ?_⟩
  · intro ch hch
    exact chunksGo_length_le _ _ _ _ hch
  · rw [chunksGo_count _ hc _ _ le_rfl]
    exact chunk_count_le _ _ hp hn1

theorem compute_chunk_invariants_witness :
    0 < 3 ∧ THRESHOLD ≤ ([1, 2, 3, 4, 5, 6, 7, 8, 9, 10] : List Nat).length ∧
    ((([1, 2, 3, 4, 5, 6, 7, 8, 9, 10] : List Nat).length
        ≤ ((([1, 2, 3, 4, 5, 6, 7, 8, 9, 10] : List Nat).length + 3 - 1) / 3) * 3 ∧
      ∀ k, ([1, 2, 3, 4, 5, 6, 7, 8, 9, 10] : List Nat).length ≤ k * 3 →
        (([1, 2, 3, 4, 5, 6, 7, 8, 9, 10] : List Nat).length + 3 - 1) / 3 ≤ k) ∧
     (∀ ch ∈ chunksGo ([1, 2, 3, 4, 5, 6, 7, 8, 9, 10] : List Nat).length
          ((([1, 2, 3, 4, 5, 6, 7, 8, 9, 10] : List Nat).length + 3 - 1) / 3)
          ([1, 2, 3, 4, 5, 6, 7, 8, 9, 10] : List Nat),
        ch.length ≤ (([1, 2, 3, 4, 5, 6, 7, 8, 9, 10] : List Nat).length + 3 - 1) / 3) ∧
     (chunksGo ([1, 2, 3, 4, 5, 6, 7, 8, 9, 10] : List Nat).length
        ((([1, 2, 3, 4, 5, 6, 7, 8, 9, 10] : List Nat).length + 3 - 1) / 3)
        ([1, 2, 3, 4, 5, 6, 7, 8, 9, 10] : List Nat)).length ≤ 3) :=
  ⟨by decide, by decide,
    compute_chunk_invariants [1, 2, 3, 4, 5, 6, 7, 8, 9, 10] 3
      (by decide) (by decide)⟩

/-- C4 as stated is false on the code: with `n = 10` and `p = 3` the chunk
size is `(10 + 3 - 1) / 3 = 4` and the chunks have lengths `[4, 4, 2]`, so
the largest and smallest chunk differ by 2 elements, not at most 1. -/
theorem chunk_evenness_counterexample :
    ¬ (∀ a ∈ chunksGo ([0, 1, 2, 3, 4, 5, 6, 7, 8, 9] : List Nat).length
          ((([0, 1, 2, 3, 4, 5, 6, 7, 8, 9] : List Nat).length + 3 - 1) / 3)
          ([0, 1, 2, 3, 4, 5, 6, 7, 8, 9] : List Nat),
        ∀ b ∈ chunksGo ([0, 1, 2, 3, 4, 5, 6, 7, 8, 9] : List Nat).length
          ((([0, 1, 2, 3, 4, 5, 6, 7, 8, 9] : List Nat).length + 3 - 1) / 3)
          ([0, 1, 2, 3, 4, 5, 6, 7, 8, 9] : List Nat),
          a.length ≤ b.length + 1) := by decide

/-- C4 amended: every chunk except possibly the last has exactly
`chunk_size = ceil(n/p)` elements, and every chunk has between 1 and
`chunk_size` elements — so only the last chunk can be smaller, by any number
of elements. -/
theorem chunk_sizes_full_except_last {T : Type} (input : List T) (p : Nat)
    (hp : 0 < p) (hn : THRESHOLD ≤ input.length) :
    (∀ ch ∈ (chunksGo input.length ((input.length + p - 1) / p) input).dropLast,
      ch.length = (input.length + p - 1) / p) ∧
    (∀ ch ∈ chunksGo input.length ((input.length + p - 1) / p) input,
      1 ≤ ch.length ∧ ch.length ≤ (input.length + p - 1) / p) := by
  have h5 : THRESHOLD = 5 := rfl
  have hc : 0 < (input.length + p - 1) / p :=
    chunk_size_pos _ _ hp (by omega)
  refine ⟨?_, ?_⟩
  · intro ch hch
    exact chunksGo_dropLast_length _ hc _ _ _ le_rfl hch
  · intro ch hch
    exact ⟨chunksGo_length_pos _ hc _ _ _ hch, chunksGo_length_le _ _ _ _ hch⟩

theorem chunk_sizes_full_except_last_witness :
    0 < 3 ∧ THRESHOLD ≤ ([0, 1, 2, 3, 4, 5, 6, 7, 8, 9] : List Nat).length ∧
    ((∀ ch ∈ (chunksGo ([0, 1, 2, 3, 4, 5, 6, 7, 8, 9] : List Nat).length
          ((([0, 1, 2, 3, 4, 5, 6, 7, 8, 9] : List Nat).length + 3 - 1) / 3)
          ([0, 1, 2, 3, 4, 5, 6, 7, 8, 9] : List Nat)).dropLast,
        ch.length = (([0, 1, 2, 3, 4, 5, 6, 7, 8, 9] : List Nat).length + 3 - 1) / 3) ∧
     (∀ ch ∈ chunksGo ([0, 1, 2, 3, 4, 5, 6, 7, 8, 9] : List Nat).length
          ((([0, 1, 2, 3, 4, 5, 6, 7, 8, 9] : List Nat).length + 3 - 1) / 3)
          ([0, 1, 2, 3, 4, 5, 6, 7, 8, 9] : List Nat),
        1 ≤ ch.length ∧
          ch.length ≤ (([0, 1, 2, 3, 4, 5, 6, 7, 8, 9] : List Nat).length + 3 - 1) / 3)) :=
  ⟨by decide, by decide,
    chunk_sizes_full_except_last [0, 1, 2, 3, 4, 5, 6, 7, 8, 9] 3
      (by decide) (by decide)⟩

/-- C5: on the parallel path the chunks partition the input exactly
(flattening them in chunk order restores the input — contiguous, no overlap,
no gaps, order preserved), and concatenating the per-chunk mapped results in
chunk order is exactly the `compute` output and equals the map of the input
in original order. -/
theorem compute_chunks_partition {T R : Type} (input : List T) (f : T → R)
    (p : Nat) (hp : 0 < p) (hn : THRESHOLD ≤ input.length) :
    (chunksGo input.length ((input.length + p - 1) / p) input).flatten = input ∧
    compute (some p) input f
      = some (((chunksGo input.length ((input.length + p - 1) / p) input).map
          (fun chunk => chunk.map f)).flatten) ∧
    ((chunksGo input.length ((input.length + p - 1) / p) input).map
        (fun chunk => chunk.map f)).flatten = input.map f := by
  have h5 : THRESHOLD = 5 := rfl
  have hc : 0 < (input.length + p - 1) / p :=
    chunk_size_pos _ _ hp (by omega)
  have hflat : (chunksGo input.length ((input.length + p - 1) / p) input).flatten
      = input := chunksGo_flatten _ hc _ _ le_rfl
  refine ⟨hflat, compute_parallel_eq input f p hp hn, ?_⟩
  rw [← List.map_flatten, hflat]

theorem compute_chunks_partition_witness :
    0 < 3 ∧ THRESHOLD ≤ ([1, 2, 3, 4, 5, 6, 7] : List Nat).length ∧
    ((chunksGo ([1, 2, 3, 4, 5, 6, 7] : List Nat).length
        ((([1, 2, 3, 4, 5, 6, 7] : List Nat).length + 3 - 1) / 3)
        ([1, 2, 3, 4, 5, 6, 7] : List Nat)).flatten
          = ([1, 2, 3, 4, 5, 6, 7] : List Nat) ∧
     compute (some 3) ([1, 2, 3, 4, 5, 6, 7] : List Nat) (fun t => t * 2)
       = some (((chunksGo ([1, 2, 3, 4, 5, 6, 7] : List Nat).length
            ((([1, 2, 3, 4, 5, 6, 7] : List Nat).length + 3 - 1) / 3)
            ([1, 2, 3, 4, 5, 6, 7] : List Nat)).map
              (fun chunk => chunk.map (fun t => t * 2))).flatten) ∧
     ((chunksGo ([1, 2, 3, 4, 5, 6, 7] : List Nat).length
          ((([1, 2, 3, 4, 5, 6, 7] : List Nat).length + 3 - 1) / 3)
          ([1, 2, 3, 4, 5, 6, 7] : List Nat)).map
            (fun chunk => chunk.map (fun t => t * 2))).flatten
       = ([1, 2, 3, 4, 5, 6, 7] : List Nat).map (fun t => t * 2)) :=
  ⟨by decide, by decide,
    compute_chunks_partition [1, 2, 3, 4, 5, 6, 7] (fun t => t * 2) 3
      (by decide) (by decide)⟩

/-- C6 as stated is false on the code: with 6 elements, parallelism 2 (two
workers) and an `f` that fails on element 0 (first chunk), the first
`join().unwrap()` panics immediately, so only 1 of the 2 workers is ever
joined — the second worker is abandoned, and the failure does not wait for
all joins. -/
theorem join_all_counterexample :
    (Option.none ∈ handlesOf 2 ([0, 1, 2, 3, 4, 5] : List Nat)
        (fun x => if x = 0 then none else some x)) ∧
    joinCount (handlesOf 2 ([0, 1, 2, 3, 4, 5] : List Nat)
        (fun x => if x = 0 then none else some x)) = 1 ∧
    (handlesOf 2 ([0, 1, 2, 3, 4, 5] : List Nat)
        (fun x => if x = 0 then none else some x)).length = 2 := by decide

/-- C6 amended: if `f` fails inside some worker, the caller still observes a
failed `compute` call (never a partial or corrupted result), but handles are
joined in spawn order only up to and including the first failed one: the
number of joins performed is the index of the first failing worker plus one,
and workers after it are not joined. -/
theorem compute_failure_first_join {T R : Type} (input : List T)
    (f : T → Option R) (p : Nat) (hp : 0 < p) (hn : THRESHOLD ≤ input.length)
    (pre post : List (Option (List R)))
    (hsplit : handlesOf p input f = pre ++ Option.none :: post)
    (hpre : Option.none ∉ pre) :
    computePanic (some p) input f = none ∧
    joinCount (handlesOf p input f) = pre.length + 1 := by
  refine ⟨?_, ?_⟩
  · rw [computePanic_parallel_eq input f p hp hn]
    refine joinCollect_eq_none ?_
    rw [hsplit]
    exact List.mem_append_right _ (List.mem_cons_self _ _)
  · rw [hsplit]
    exact joinCount_first_fail pre post hpre

theorem compute_failure_first_join_witness :
    0 < 2 ∧ THRESHOLD ≤ ([0, 1, 2, 3, 4, 5] : List Nat).length ∧
    handlesOf 2 ([0, 1, 2, 3, 4, 5] : List Nat)
        (fun x => if x = 3 then none else some x)
      = [some [0, 1, 2]] ++ Option.none :: [] ∧
    Option.none ∉ ([some [0, 1, 2]] : List (Option (List Nat))) ∧
    (computePanic (some 2) ([0, 1, 2, 3, 4, 5] : List Nat)
        (fun x => if x = 3 then none else some x) = none ∧
     joinCount (handlesOf 2 ([0, 1, 2, 3, 4, 5] : List Nat)
        (fun x => if x = 3 then none else some x))
       = ([some [0, 1, 2]] : List (Option (List Nat))).length + 1) :=
  ⟨by decide, by decide, by decide, by decide,
    compute_failure_first_join [0, 1, 2, 3, 4, 5]
      (fun x => if x = 3 then none else some x) 2 (by decide) (by decide)
      [some [0, 1, 2]] [] (by decide) (by decide)⟩

end SimpleParallelCompute

open SimpleParallelCompute

example : compute (some 4) [1, 2, 3, 4, 5, 6, 7, 8, 9, 10] (fun t => t * 2)
    = some [2, 4, 6, 8, 10, 12, 14, 16, 18, 20] := by decide

example : compute (some 3) [1, 2, 3, 4, 5, 6, 7, 8, 9, 10] (fun t => t * 2)
    = some [2, 4, 6, 8, 10, 12, 14, 16, 18, 20] := by decide

example : compute none ([] : List Nat) (fun t => t * 2) = some [] := by decide

example : compute none [1, 2, 3, 4, 5] (fun t => t * 2) = none := by decide

example : chunksGo 10 4 [1, 2, 3, 4, 5, 6, 7, 8, 9, 10]
    = [[1, 2, 3, 4], [5, 6, 7, 8], [9, 10]] := by decide
